import Mathlib

/-!
Verification of the OpenAPI/Swagger endpoint extractor of http-file-maker.

The development shallowly embeds the two source files
(`src/openapi_parser.py` and `src/http_file_maker.py`) into Lean:
YAML/JSON values become an inductive `Json` type, the dictionaries the
code reads become records with `Option` fields mirroring every
`dict.get(key, default)` in the source, and each Python method becomes a
computable Lean function following the source line by line.  Python
`str` operations used by the code (`replace`, `split`, `rstrip`,
`upper`, `join`, f-string `str()` conversion, `json.dumps(·, indent=2)`)
are modelled over `List Char` so that every definition evaluates inside
the kernel.  Machine-level caveats: the `Char`-based models of `upper`
and of JSON string escaping are exact for ASCII data, which is the only
data the repository's code paths and the claims exercise.
-/

/-! ## Python string primitives, modelled over `List Char` -/

/-- JSON-like values: the result of `yaml.safe_load` as far as the code
consumes it (no floats appear in any code path the claims touch). -/
inductive Json where
  | null
  | bool (b : Bool)
  | num (n : Int)
  | str (s : String)
  | arr (xs : List Json)
  | obj (kvs : List (String × Json))

/-- Python `sep.join(items)` for strings. -/
def joinSep (sep : String) : List String → String
  | [] => ""
  | [x] => x
  | x :: y :: xs => x ++ sep ++ joinSep sep (y :: xs)

/-- Python `s.startswith(pat)`. -/
def pyStartsWith (s pat : String) : Bool := pat.data.isPrefixOf s.data

/-- Python `s.rstrip('/')`: drop every trailing `'/'`. -/
def rstripSlash (s : String) : String :=
  String.mk ((s.data.reverse.dropWhile (fun c => c = '/')).reverse)

/-- Split a character list at every occurrence of the separator
character, as Python `s.split('/')` does for a one-character separator. -/
def splitCharAux (sep : Char) : List Char → List Char → List (List Char)
  | [], acc => [acc.reverse]
  | c :: rest, acc =>
    if c = sep then acc.reverse :: splitCharAux sep rest []
    else splitCharAux sep rest (c :: acc)

/-- Python `s.split('/')[-1]`, used by the source to take the last
component of a `$ref` such as `#/definitions/User`. -/
def lastComp (s : String) : String :=
  String.mk ((splitCharAux '/' s.data []).getLastD [])

/-- ASCII upper-casing of one character (Python `str.upper`, restricted
to the ASCII range the repository's method names live in). -/
def asciiUpper (c : Char) : Char :=
  if 'a' ≤ c ∧ c ≤ 'z' then Char.ofNat (c.toNat - 32) else c

/-- Python `s.upper()` (ASCII model). -/
def pyUpper (s : String) : String := String.mk (s.data.map asciiUpper)

/-- Boolean substring test, Python's `pat in s`. -/
def containsSubstr (s pat : String) : Bool := decide (pat.data <:+: s.data)

/-- Fuelled worker for Python `s.replace(pat, repl)`: scan left to
right, replace each non-overlapping occurrence of `pat` by `repl`.  The
fuel is the length of the remaining text, which strictly bounds the
recursion, keeping the function structurally recursive (hence kernel
evaluable). -/
def replaceFuel (pat repl : List Char) : Nat → List Char → List Char
  | _, [] => []
  | 0, s => s
  | fuel + 1, c :: rest =>
    if pat ≠ [] ∧ pat <+: (c :: rest) then
      repl ++ replaceFuel pat repl fuel ((c :: rest).drop pat.length)
    else
      c :: replaceFuel pat repl fuel rest

/-- Python `s.replace(pat, repl)` on character lists (the `pat = []`
case never arises in the source: path-parameter patterns are `{name}`). -/
def pyReplaceL (s pat repl : List Char) : List Char :=
  replaceFuel pat repl s.length s

/-- Python `s.replace(pat, repl)` on strings. -/
def pyReplace (s pat repl : String) : String :=
  String.mk (pyReplaceL s.data pat.data repl.data)

/-! ## The model of Python `json.dumps(value, indent=2)` -/

/-- The indentation: `lvl`-many levels of two spaces. -/
def indentStr (lvl : Nat) : String := String.mk (List.replicate (2 * lvl) ' ')

/-- One hexadecimal digit. -/
def hexDigit (n : Nat) : Char :=
  if n < 10 then Char.ofNat ('0'.toNat + n) else Char.ofNat ('a'.toNat + (n - 10))

/-- Four-digit lowercase hex, as in JSON `\uXXXX` escapes. -/
def hex4 (n : Nat) : String :=
  String.mk [hexDigit (n / 4096 % 16), hexDigit (n / 256 % 16),
             hexDigit (n / 16 % 16), hexDigit (n % 16)]

/-- Escape one character the way Python `json.dumps` (default
`ensure_ascii=True`) does. -/
def jsonEscapeChar (c : Char) : String :=
  if c = '"' then "\\\""
  else if c = '\\' then "\\\\"
  else if c = '\n' then "\\n"
  else if c = '\t' then "\\t"
  else if c = '\x0d' then "\\r"
  else if c = '\x08' then "\\b"
  else if c = '\x0c' then "\\f"
  else if c.toNat < 32 then "\\u" ++ hex4 c.toNat
  else if c.toNat < 127 then String.mk [c]
  else if c.toNat < 65536 then "\\u" ++ hex4 c.toNat
  else
    "\\u" ++ hex4 (55296 + (c.toNat - 65536) / 1024) ++
    "\\u" ++ hex4 (56320 + (c.toNat - 65536) % 1024)

/-- A JSON string literal for `s`. -/
def jsonQuote (s : String) : String :=
  "\"" ++ joinSep "" (s.data.map jsonEscapeChar) ++ "\""

mutual

/-- Python `json.dumps(v, indent=2)` rendered at nesting level `lvl`. -/
def dumpsAt : Nat → Json → String
  | _, .null => "null"
  | _, .bool b => if b then "true" else "false"
  | _, .num n => toString n
  | _, .str s => jsonQuote s
  | _, .arr [] => "[]"
  | lvl, .arr (x :: xs) =>
    "[\n" ++ joinSep ",\n" (dumpsList (lvl + 1) (x :: xs)) ++ "\n" ++ indentStr lvl ++ "]"
  | _, .obj [] => "\x7b\x7d"
  | lvl, .obj (kv :: kvs) =>
    "\x7b\n" ++ joinSep ",\n" (dumpsPairs (lvl + 1) (kv :: kvs)) ++ "\n" ++ indentStr lvl ++ "\x7d"

/-- The indented renderings of the elements of a JSON array. -/
def dumpsList : Nat → List Json → List String
  | _, [] => []
  | lvl, x :: xs => (indentStr lvl ++ dumpsAt lvl x) :: dumpsList lvl xs

/-- The indented `"key": value` renderings of the members of a JSON object. -/
def dumpsPairs : Nat → List (String × Json) → List String
  | _, [] => []
  | lvl, (k, v) :: kvs =>
    (indentStr lvl ++ jsonQuote k ++ ": " ++ dumpsAt lvl v) :: dumpsPairs lvl kvs

end

/-- Python `json.dumps(v, indent=2)`. -/
def dumps (v : Json) : String := dumpsAt 0 v

/-- Python `repr` for parsed-YAML values (ASCII model; only reached by
`str()` on lists and dicts, which none of the repository's code paths
with example data exercise). -/
def pyReprEscape (c : Char) : String :=
  if c = '\\' then "\\\\" else if c = '\x27' then "\\\x27" else String.mk [c]

mutual

/-- Python `str(v)` for a parsed-YAML value, as used by the source's
f-strings and `str(example)` call. -/
def pyStr : Json → String
  | .null => "None"
  | .bool b => if b then "True" else "False"
  | .num n => toString n
  | .str s => s
  | .arr xs => "[" ++ joinSep ", " (pyReprList xs) ++ "]"
  | .obj kvs => "\x7b" ++ joinSep ", " (pyReprPairs kvs) ++ "\x7d"

/-- Python `repr(v)` (reprs of strings use single quotes). -/
def pyRepr : Json → String
  | .str s => "\x27" ++ joinSep "" (s.data.map pyReprEscape) ++ "\x27"
  | .null => "None"
  | .bool b => if b then "True" else "False"
  | .num n => toString n
  | .arr xs => "[" ++ joinSep ", " (pyReprList xs) ++ "]"
  | .obj kvs => "\x7b" ++ joinSep ", " (pyReprPairs kvs) ++ "\x7d"

/-- Reprs of the elements of a list value. -/
def pyReprList : List Json → List String
  | [] => []
  | x :: xs => pyRepr x :: pyReprList xs

/-- Reprs of the members of a dict value. -/
def pyReprPairs : List (String × Json) → List String
  | [] => []
  | (k, v) :: kvs => (pyRepr (.str k) ++ ": " ++ pyRepr v) :: pyReprPairs kvs

end

/-! ## Data model: the dictionaries the source reads

Each record field mirrors one key the source reads with `dict.get`; an
`Option` field distinguishes a missing key from a present one, which the
`get` defaults in the code collapse exactly where the source does. -/

/-- A schema node (`type`, `format`, `example`, `$ref`, `default`,
`properties`, `required`, `items`), as consumed by
`OpenAPIParser._get_request_body`. -/
inductive Schema where
  | mk (exampleVal : Option Json) (ref : Option String) (type : Option String)
       (format : Option String) (defaultVal : Option Json)
       (properties : Option (List (String × Schema)))
       (required : List String)
       (items : Option Schema)

/-- The `example` key of a schema. -/
def Schema.exampleVal : Schema → Option Json
  | .mk e _ _ _ _ _ _ _ => e

/-- The `$ref` key of a schema. -/
def Schema.ref : Schema → Option String
  | .mk _ r _ _ _ _ _ _ => r

/-- The `type` key of a schema. -/
def Schema.type : Schema → Option String
  | .mk _ _ t _ _ _ _ _ => t

/-- The `format` key of a schema. -/
def Schema.format : Schema → Option String
  | .mk _ _ _ f _ _ _ _ => f

/-- The `default` key of a schema. -/
def Schema.defaultVal : Schema → Option Json
  | .mk _ _ _ _ d _ _ _ => d

/-- The `properties` key of a schema (an ordered mapping name ↦ schema). -/
def Schema.properties : Schema → Option (List (String × Schema))
  | .mk _ _ _ _ _ p _ _ => p

/-- The `required` key of a schema (`.get('required', [])` in the source). -/
def Schema.required : Schema → List String
  | .mk _ _ _ _ _ _ r _ => r

/-- The `items` key of a schema. -/
def Schema.items : Schema → Option Schema
  | .mk _ _ _ _ _ _ _ i => i

/-- The empty dict `{}`, the default the source supplies for a missing
schema, definition or `items`. -/
def Schema.empty : Schema := .mk none none none none none none [] none

/-- One entry of an operation's `parameters` list.  `inLoc` models the
`in` key (`in` is reserved in Lean). -/
structure Param where
  inLoc : Option String
  name : Option String
  schema : Option Schema
  exampleVal : Option Json
  defaultVal : Option Json

/-- One entry of `securityDefinitions`.  `inLoc` models the `in` key. -/
structure SecDef where
  type : Option String
  inLoc : Option String
  name : Option String
  description : Option String

/-- One method entry under a path.  `security` is a list of requirement
dicts; the source only iterates each dict's keys (the scheme names), so a
requirement is modelled as its key list. -/
structure Operation where
  parameters : Option (List Param)
  security : Option (List (List String))
  summary : Option String
  description : Option String
  operationId : Option String
  tags : Option (List String)

/-- One value of the `paths` mapping.  The source reads the optional
`parameters` key and iterates the items, skipping every key that is not
one of the seven HTTP method names; `entries` carries the iteration
order of those items (a skipped key's value is never read). -/
structure PathItem where
  parameters : Option (List Param)
  entries : List (String × Operation)

/-- The loaded specification document: the keys of `self.spec` the
source reads. -/
structure Doc where
  schemes : Option (List String)
  host : Option String
  basePath : Option String
  paths : List (String × PathItem)
  definitions : List (String × Schema)
  securityDefinitions : List (String × SecDef)
  security : Option (List (List String))

/-- One record of the list `extract_endpoints` returns. -/
structure Endpoint where
  method : String
  url : String
  headers : List (String × String)
  body : Option String
  summary : String
  description : String
  operationId : String
  path : String
  tags : List String

/-- Python dict assignment `d[k] = v` on an insertion-ordered mapping:
overwrite in place if the key exists, else append. -/
def dictInsert (d : List (String × String)) (k v : String) : List (String × String) :=
  if d.any (fun kv => kv.1 = k) then
    d.map (fun kv => if kv.1 = k then (k, v) else kv)
  else d ++ [(k, v)]

/-- Python dict assignment for JSON object members (same semantics). -/
def jsonObjInsert (d : List (String × Json)) (k : String) (v : Json) : List (String × Json) :=
  if d.any (fun kv => kv.1 = k) then
    d.map (fun kv => if kv.1 = k then (k, v) else kv)
  else d ++ [(k, v)]

/-! ## `OpenAPIParser`: the request-body synthesizer

`_get_request_body` (openapi_parser.py lines 57-209).  The per-property
loop bodies of the two live branches are factored into one function per
branch; each mirrors its loop body exactly.  The source's trailing
`if prop_name not in required and prop_name not in example: continue`
is a no-op (the `continue` ends an iteration that is already over), so
it contributes nothing to either function; lines 160-207 sit after a
`return` and are unreachable. -/

/-- The value the referenced-definition branch (lines 81-123) synthesizes
for one property, `none` when the loop body assigns nothing (a `type`
outside the five handled ones). -/
def propValueRef (defs : List (String × Schema)) (pn : String) (ps : Schema) : Option Json :=
  match ps.exampleVal with
  | some e => some e
  | none =>
    match ps.type.getD "string" with
    | "string" =>
      if ps.format = some "email" then some (.str "user@example.com")
      else if ps.format = some "date-time" then some (.str "2024-12-31T23:59:59Z")
      else some (.str ("<" ++ pn ++ ">"))
    | "integer" => some (ps.defaultVal.getD (.num 0))
    | "boolean" => some (ps.defaultVal.getD (.bool false))
    | "array" =>
      let items := ps.items.getD Schema.empty
      let iref := items.ref.getD ""
      if iref ≠ "" then
        let itemDef := (List.lookup (lastComp iref) defs).getD Schema.empty
        match itemDef.properties with
        | some iprops =>
          some (.arr [.obj (iprops.foldl
            (fun acc ip =>
              jsonObjInsert acc ip.1 (ip.2.exampleVal.getD (.str ("<" ++ ip.1 ++ ">")))) [])])
        | none => some (.arr [])
      else some (.arr [])
    | "object" => some (.obj [])
    | _ => none

/-- The value the inline-schema branch (lines 132-157) synthesizes for
one property; arrays are always assigned `[]` there (line 151). -/
def propValueInline (pn : String) (ps : Schema) : Option Json :=
  match ps.exampleVal with
  | some e => some e
  | none =>
    match ps.type.getD "string" with
    | "string" =>
      if ps.format = some "email" then some (.str "user@example.com")
      else if ps.format = some "date-time" then some (.str "2024-12-31T23:59:59Z")
      else some (.str ("<" ++ pn ++ ">"))
    | "integer" => some (ps.defaultVal.getD (.num 0))
    | "boolean" => some (ps.defaultVal.getD (.bool false))
    | "array" => some (.arr [])
    | "object" => some (.obj [])
    | _ => none

/-- The `example` dict built from a referenced definition's `properties`
(lines 78-123). -/
def buildExampleRef (defs : List (String × Schema)) (props : List (String × Schema)) :
    List (String × Json) :=
  props.foldl
    (fun ex p =>
      match propValueRef defs p.1 p.2 with
      | some v => jsonObjInsert ex p.1 v
      | none => ex) []

/-- The `example` dict built from an inline object schema's `properties`
(lines 129-157). -/
def buildExampleInline (props : List (String × Schema)) : List (String × Json) :=
  props.foldl
    (fun ex p =>
      match propValueInline p.1 p.2 with
      | some v => jsonObjInsert ex p.1 v
      | none => ex) []

/-- The `for param in parameters` loop of `_get_request_body`
(lines 63-208).  A loop iteration that reaches no `return` statement
falls through to the next parameter, which the recursion mirrors. -/
def bodyLoop (defs : List (String × Schema)) : List Param → Option String
  | [] => none
  | p :: rest =>
    if p.inLoc = some "body" then
      let schema := p.schema.getD Schema.empty
      match schema.exampleVal with
      | some e => some (dumps e)
      | none =>
        let ref := schema.ref.getD ""
        if ref ≠ "" ∧ pyStartsWith ref "#/definitions/" then
          let definition := (List.lookup (lastComp ref) defs).getD Schema.empty
          match definition.exampleVal with
          | some e => some (dumps e)
          | none =>
            match definition.properties with
            | some props => some (dumps (.obj (buildExampleRef defs props)))
            | none => bodyLoop defs rest
        else if schema.type = some "object" then
          match schema.properties with
          | some props => some (dumps (.obj (buildExampleInline props)))
          | none => bodyLoop defs rest
        else bodyLoop defs rest
    else bodyLoop defs rest

/-- Method `OpenAPIParser._get_request_body(operation)`; the definitions table
is the `self.spec.get('definitions', {})` the method reads. -/
def getRequestBody (defs : List (String × Schema)) (op : Operation) : Option String :=
  bodyLoop defs (op.parameters.getD [])

/-! ## `OpenAPIParser`: URL construction -/

/-- Method `OpenAPIParser._build_base_url` (lines 26-32).  Indexing
`self.spec.get('schemes', ['https'])[0]` raises `IndexError` on a
present-but-empty `schemes` list, hence the `Option`. -/
def buildBaseUrl (d : Doc) : Option String :=
  ((d.schemes.getD ["https"]).get? 0).map
    (fun scheme => scheme ++ "://" ++ d.host.getD "" ++ d.basePath.getD "")

/-- The parser object: the loaded document plus the base URL the
constructor computes. -/
structure OpenAPIParser where
  spec : Doc
  base_url : String

/-- Constructor `OpenAPIParser.__init__` after `yaml.safe_load`: store the document
and build the base URL; `none` when `_build_base_url` raises. -/
def OpenAPIParser.init (d : Doc) : Option OpenAPIParser :=
  (buildBaseUrl d).map (fun b => ⟨d, b⟩)

/-- Simplified model of `urllib.parse.urljoin(base, path)` for the one
call site (line 220): the base is absolute and ends in `'/'`, and the
relative path is appended to it (dot-segment normalization is not
modelled; no claim exercises this branch). -/
def urljoinModel (base path : String) : String := base ++ path

/-- The path-parameter substitution loop of `_build_url`
(lines 223-228). -/
def pathSubstLoop (url : String) (params : List Param) : String :=
  params.foldl
    (fun u p =>
      if p.inLoc = some "path" then
        let pname := p.name.getD ""
        let ex := p.exampleVal.getD (.str ("<" ++ pname ++ ">"))
        pyReplace u ("\x7b" ++ pname ++ "\x7d") (pyStr ex)
      else u) url

/-- Base-and-path concatenation plus path-parameter substitution
(lines 216-228). -/
def resolvePathUrl (baseUrl path : String) (params : List Param) : String :=
  let url0 :=
    if pyStartsWith path "/" then rstripSlash baseUrl ++ path
    else urljoinModel (rstripSlash baseUrl ++ "/") path
  pathSubstLoop url0 params

/-- The query-parameter collection loop of `_build_url`
(lines 231-236). -/
def queryLoop : List Param → List String
  | [] => []
  | p :: rest =>
    if p.inLoc = some "query" then
      let pname := p.name.getD ""
      let ex := p.exampleVal.getD (p.defaultVal.getD (.str ("<" ++ pname ++ ">")))
      (pname ++ "=" ++ pyStr ex) :: queryLoop rest
    else queryLoop rest

/-- Method `OpenAPIParser._build_url(path, operation)` (lines 211-241). -/
def buildUrl (baseUrl path : String) (op : Operation) : String :=
  let params := op.parameters.getD []
  let url1 := resolvePathUrl baseUrl path params
  let qs := queryLoop params
  if qs = [] then url1 else url1 ++ "?" ++ joinSep "&" qs

/-! ## `OpenAPIParser`: security headers -/

/-- The placeholder value for one header-borne API key (line 53). -/
def bearerValue (sd : SecDef) : String :=
  if containsSubstr (sd.description.getD "") "Bearer" then "Bearer <your-token>"
  else "<your-token>"

/-- The inner `for sec_name, sec_value in sec.items()` loop of
`_get_security_headers` (lines 47-53). -/
def secInner (sdefs : List (String × SecDef)) : List String →
    List (String × String) → List (String × String)
  | [], hs => hs
  | nm :: rest, hs =>
    secInner sdefs rest
      (match List.lookup nm sdefs with
       | some sd =>
         if sd.type = some "apiKey" ∧ sd.inLoc = some "header" then
           dictInsert hs (sd.name.getD "") (bearerValue sd)
         else hs
       | none => hs)

/-- The outer `for sec in security` loop (lines 46-53). -/
def secLoop (sdefs : List (String × SecDef)) : List (List String) →
    List (String × String) → List (String × String)
  | [], hs => hs
  | req :: rest, hs => secLoop sdefs rest (secInner sdefs req hs)

/-- Method `OpenAPIParser._get_security_headers(operation)` (lines 34-55):
`security = operation.get('security', [])`, replaced by the document's
top-level `security` when falsy (absent or the empty list). -/
def getSecurityHeaders (spec : Doc) (op : Operation) : List (String × String) :=
  let security := op.security.getD []
  let security := if security = [] then spec.security.getD [] else security
  secLoop spec.securityDefinitions security []

/-! ## `OpenAPIParser.extract_endpoints` -/

/-- The seven method keys the extractor recognizes (line 253). -/
def METHODS : List String := ["get", "post", "put", "patch", "delete", "head", "options"]

/-- Python truthiness of the optional request body
(`if request_body:` on line 269). -/
def bodyTruthy : Option String → Bool
  | some s => s ≠ ""
  | none => false

/-- One endpoint record (lines 256-287), built from an operation whose
`parameters` have already been overwritten with the merged list. -/
def makeEndpoint (spec : Doc) (baseUrl path method : String) (op2 : Operation) : Endpoint :=
  let url := buildUrl baseUrl path op2
  let headers := getSecurityHeaders spec op2
  let requestBody := getRequestBody spec.definitions op2
  let headers2 :=
    if bodyTruthy requestBody then dictInsert headers "Content-Type" "application/json"
    else headers
  { method := pyUpper method
    url := url
    headers := headers2
    body := requestBody
    summary := op2.summary.getD ""
    description := op2.description.getD ""
    operationId := op2.operationId.getD ""
    path := path
    tags := op2.tags.getD [] }

/-- The `for method, operation in path_item.items()` loop
(lines 252-287).  The assignment `operation['parameters'] = all_params`
on line 259 mutates the operation stored in the document, which the
returned entry list records; the helper methods then read the mutated
operation.  The reads `self.spec.get('definitions'/'securityDefinitions'
/'security')` inside the helpers are unaffected by this mutation, so the
original document is passed to them. -/
def processOps (spec : Doc) (baseUrl path : String) (common : List Param) :
    List (String × Operation) → List Endpoint × List (String × Operation)
  | [] => ([], [])
  | (method, op) :: rest =>
    if method ∈ METHODS then
      let allParams := common ++ op.parameters.getD []
      let op2 := { op with parameters := some allParams }
      let ep := makeEndpoint spec baseUrl path method op2
      let r := processOps spec baseUrl path common rest
      (ep :: r.1, (method, op2) :: r.2)
    else
      let r := processOps spec baseUrl path common rest
      (r.1, (method, op) :: r.2)

/-- The `for path, path_item in paths.items()` loop (lines 248-287). -/
def processPaths (spec : Doc) (baseUrl : String) :
    List (String × PathItem) → List Endpoint × List (String × PathItem)
  | [] => ([], [])
  | (path, pi) :: rest =>
    let common := pi.parameters.getD []
    let r1 := processOps spec baseUrl path common pi.entries
    let r2 := processPaths spec baseUrl rest
    (r1.1 ++ r2.1, (path, { pi with entries := r1.2 }) :: r2.2)

/-- Method `OpenAPIParser.extract_endpoints()` (lines 243-289), with the state
of the document after the run returned alongside the endpoint list so
that the in-place parameter merges of line 259 are observable. -/
def extractEndpoints (p : OpenAPIParser) : List Endpoint × Doc :=
  let r := processPaths p.spec p.base_url p.spec.paths
  (r.1, { p.spec with paths := r.2 })

/-! ## `HTTPFileMaker` (http_file_maker.py) -/

/-- The recognized output formats (line 19). -/
def FORMATS : List String := ["rest-client", "httpie", "curl"]

/-- The maker object with the fields `__init__` assigns (lines 33-37). -/
structure HTTPFileMaker where
  method : String
  url : String
  headers : List (String × String)
  body : Option String
  format_type : String

/-- Constructor `HTTPFileMaker.__init__` (lines 21-40): assign the fields (upper-
casing the method), then raise `ValueError` for an unrecognized
`format_type`. -/
def HTTPFileMaker.make (method url : String) (headers : Option (List (String × String)))
    (body : Option String) (format_type : String) : Except String HTTPFileMaker :=
  let m : HTTPFileMaker :=
    { method := pyUpper method
      url := url
      headers := headers.getD []
      body := body
      format_type := format_type }
  if format_type ∈ FORMATS then .ok m
  else .error ("Format must be one of: " ++ joinSep ", " FORMATS)

/-- Python truthiness of `self.body` (`if self.body:`). -/
def strTruthy : Option String → Bool
  | some s => s ≠ ""
  | none => false

/-- Method `HTTPFileMaker.generate_rest_client` (lines 42-55). -/
def HTTPFileMaker.generate_rest_client (m : HTTPFileMaker) : String :=
  joinSep "\n"
    ([m.method ++ " " ++ m.url] ++
     m.headers.map (fun kv => kv.1 ++ ": " ++ kv.2) ++
     (if strTruthy m.body then ["", m.body.getD ""] else []))

/-- Method `HTTPFileMaker.generate_httpie` (lines 57-69). -/
def HTTPFileMaker.generate_httpie (m : HTTPFileMaker) : String :=
  joinSep " \\\n"
    (["http " ++ m.method ++ " " ++ m.url] ++
     m.headers.map (fun kv => "  " ++ kv.1 ++ ":" ++ kv.2) ++
     (if strTruthy m.body then ["  <<< \x27" ++ m.body.getD "" ++ "\x27"] else []))

/-- Method `HTTPFileMaker.generate_curl` (lines 71-85). -/
def HTTPFileMaker.generate_curl (m : HTTPFileMaker) : String :=
  joinSep " \\\n  "
    (["curl -X " ++ m.method] ++
     m.headers.map (fun kv => "-H \x27" ++ kv.1 ++ ": " ++ kv.2 ++ "\x27") ++
     (if strTruthy m.body then ["-d \x27" ++ m.body.getD "" ++ "\x27"] else []) ++
     ["\x27" ++ m.url ++ "\x27"])

/-- Method `HTTPFileMaker.generate` (lines 87-96): dispatch on the stored
format, raising `ValueError` on the unreachable final branch. -/
def HTTPFileMaker.generate (m : HTTPFileMaker) : Except String String :=
  if m.format_type = "rest-client" then .ok m.generate_rest_client
  else if m.format_type = "httpie" then .ok m.generate_httpie
  else if m.format_type = "curl" then .ok m.generate_curl
  else .error ("Unknown format: " ++ m.format_type)

/-- Success test for the embedded fallible constructors. -/
def exceptOk {ε α : Type} : Except ε α → Bool
  | .ok _ => true
  | .error _ => false

/-! ## Claim C8: string synthesis by format -/

/-- C8: for every property schema of type string (explicitly or by the
`'string'` default) without an explicit `example`, both synthesis
branches produce exactly `"user@example.com"` for `format: email`,
exactly `"2024-12-31T23:59:59Z"` for `format: date-time`, and the
placeholder `"<propertyName>"` otherwise. -/
theorem claim_C8_string_format_synthesis (defs : List (String × Schema)) (pn : String)
    (ps : Schema) (hex : ps.exampleVal = none) (hty : ps.type.getD "string" = "string") :
    (ps.format = some "email" →
      propValueRef defs pn ps = some (.str "user@example.com") ∧
      propValueInline pn ps = some (.str "user@example.com")) ∧
    (ps.format = some "date-time" →
      propValueRef defs pn ps = some (.str "2024-12-31T23:59:59Z") ∧
      propValueInline pn ps = some (.str "2024-12-31T23:59:59Z")) ∧
    (ps.format ≠ some "email" → ps.format ≠ some "date-time" →
      propValueRef defs pn ps = some (.str ("<" ++ pn ++ ">")) ∧
      propValueInline pn ps = some (.str ("<" ++ pn ++ ">"))) := by
  refine ⟨fun h => ?_, fun h => ?_, fun h1 h2 => ?_⟩
  · simp [propValueRef, propValueInline, hex, hty, h]
  · have h' : ¬ ps.format = some "email" := by simp [h]
    simp [propValueRef, propValueInline, hex, hty, h, h']
  · simp [propValueRef, propValueInline, hex, hty, h1, h2]

/-- C8 witness: the three cases at concrete schemas. -/
theorem claim_C8_witness :
    propValueRef [] "email" (.mk none none (some "string") (some "email") none none [] none) =
      some (.str "user@example.com") ∧
    propValueInline "ts" (.mk none none (some "string") (some "date-time") none none [] none) =
      some (.str "2024-12-31T23:59:59Z") ∧
    propValueRef [] "name" (.mk none none (some "string") none none none [] none) =
      some (.str "<name>") := by
  refine ⟨?_, ?_, ?_⟩
  · exact (claim_C8_string_format_synthesis [] "email"
      (.mk none none (some "string") (some "email") none none [] none) rfl rfl).1 rfl |>.1
  · exact (claim_C8_string_format_synthesis [] "ts"
      (.mk none none (some "string") (some "date-time") none none [] none) rfl rfl).2.1 rfl |>.2
  · exact (claim_C8_string_format_synthesis [] "name"
      (.mk none none (some "string") none none none [] none) rfl rfl).2.2
      (by decide) (by decide) |>.1

/-! ## Claim C9: output-format validation -/

/-- C9: constructing an `HTTPFileMaker` errors exactly when the
requested format lies outside `FORMATS`; a successful construction
never raises a format error in `generate`. -/
theorem claim_C9_format_validation (method url : String)
    (headers : Option (List (String × String))) (body : Option String) (fmt : String) :
    (exceptOk (HTTPFileMaker.make method url headers body fmt) = true ↔ fmt ∈ FORMATS) ∧
    (∀ m, HTTPFileMaker.make method url headers body fmt = .ok m →
      exceptOk m.generate = true) := by
  constructor
  · by_cases h : fmt ∈ FORMATS <;> simp [HTTPFileMaker.make, h, exceptOk]
  · intro m hm
    by_cases h : fmt ∈ FORMATS
    · have hmf : m.format_type = fmt := by
        simp [HTTPFileMaker.make, h] at hm
        rw [← hm]
      have : fmt = "rest-client" ∨ fmt = "httpie" ∨ fmt = "curl" := by
        simpa [FORMATS] using h
      rcases this with h' | h' | h' <;>
        simp [HTTPFileMaker.generate, hmf, h', exceptOk]
    · simp [HTTPFileMaker.make, h] at hm

/-- C9 witness: a recognized format constructs and generates; an
unrecognized one is rejected. -/
theorem claim_C9_witness :
    exceptOk (HTTPFileMaker.make "get" "https://api.example.com" none none "curl") = true ∧
    exceptOk (HTTPFileMaker.make "get" "https://api.example.com" none none "json") = false := by
  constructor
  · exact (claim_C9_format_validation "get" "https://api.example.com" none none "curl").1.mpr
      (by decide)
  · have h := (claim_C9_format_validation "get" "https://api.example.com" none none "json").1
    have : ¬ ("json" ∈ FORMATS) := by decide
    cases hb : exceptOk (HTTPFileMaker.make "get" "https://api.example.com" none none "json")
    · rfl
    · exact absurd (h.mp hb) this

/-! ## Claim C10: empty `schemes` list -/

/-- C10: the `https` default is used only when `schemes` is absent; a
present-but-empty `schemes` list makes `_build_base_url` index an empty
list, so building the base URL yields nothing and parser construction
fails; a present non-empty list contributes its first element. -/
theorem claim_C10_empty_schemes (d : Doc) :
    (d.schemes = none →
      buildBaseUrl d = some ("https://" ++ d.host.getD "" ++ d.basePath.getD "")) ∧
    (d.schemes = some [] → buildBaseUrl d = none ∧ OpenAPIParser.init d = none) ∧
    (∀ s rest, d.schemes = some (s :: rest) →
      buildBaseUrl d = some (s ++ "://" ++ d.host.getD "" ++ d.basePath.getD "")) := by
  refine ⟨fun h => ?_, fun h => ?_, fun s rest h => ?_⟩ <;>
    simp [buildBaseUrl, OpenAPIParser.init, h]

/-- C10 witness: a document with `schemes: []` fails construction, one
without `schemes` defaults to https. -/
theorem claim_C10_witness :
    buildBaseUrl ⟨some [], some "api.example.com", some "/v1", [], [], [], none⟩ = none ∧
    OpenAPIParser.init ⟨some [], some "api.example.com", some "/v1", [], [], [], none⟩ = none ∧
    buildBaseUrl ⟨none, some "api.example.com", some "/v1", [], [], [], none⟩ =
      some "https://api.example.com/v1" := by
  refine ⟨?_, ?_, ?_⟩
  · exact ((claim_C10_empty_schemes _).2.1 rfl).1
  · exact ((claim_C10_empty_schemes _).2.1 rfl).2
  · exact (claim_C10_empty_schemes
      ⟨none, some "api.example.com", some "/v1", [], [], [], none⟩).1 rfl

/-! ## Claim C6: unconditional inclusion of synthesized properties -/

/-- Inserting a key makes it a key of the mapping. -/
theorem mem_keys_jsonObjInsert_self (d : List (String × Json)) (k : String) (v : Json) :
    k ∈ (jsonObjInsert d k v).map Prod.fst := by
  unfold jsonObjInsert
  split
  · rename_i h
    obtain ⟨kv, hmem, hk⟩ := List.any_eq_true.mp h
    refine List.mem_map.mpr ⟨(k, v), List.mem_map.mpr ⟨kv, hmem, ?_⟩, rfl⟩
    simp at hk
    simp [hk]
  · simp

/-- Insertion keeps every existing key. -/
theorem mem_keys_jsonObjInsert_mono (d : List (String × Json)) (k a : String) (v : Json)
    (ha : a ∈ d.map Prod.fst) : a ∈ (jsonObjInsert d k v).map Prod.fst := by
  unfold jsonObjInsert
  split
  · obtain ⟨kv, hmem, hfst⟩ := List.mem_map.mp ha
    by_cases hkk : kv.1 = k
    · exact List.mem_map.mpr ⟨(k, v), List.mem_map.mpr ⟨kv, hmem, by simp [hkk]⟩,
        by simp [← hfst, hkk]⟩
    · exact List.mem_map.mpr ⟨kv, List.mem_map.mpr ⟨kv, hmem, by simp [hkk]⟩, hfst⟩
  · simp [ha]

/-- Every property the referenced-definition loop produces a value for
ends up among the keys of the accumulated example object. -/
theorem buildExampleRef_mem_keys_aux (defs : List (String × Schema)) (pn : String)
    (ps : Schema) :
    ∀ (props : List (String × Schema)) (acc : List (String × Json)),
      ((pn, ps) ∈ props ∧ (propValueRef defs pn ps).isSome = true) ∨
        pn ∈ acc.map Prod.fst →
      pn ∈ (props.foldl
        (fun ex p =>
          match propValueRef defs p.1 p.2 with
          | some v => jsonObjInsert ex p.1 v
          | none => ex) acc).map Prod.fst := by
  intro props
  induction props with
  | nil =>
    intro acc h
    simpa using h.resolve_left (by simp)
  | cons q rest ih =>
    intro acc h
    rcases h with ⟨hmem, hsome⟩ | hacc
    · rcases List.mem_cons.mp hmem with heq | hrest
      · obtain ⟨v, hv⟩ := Option.isSome_iff_exists.mp hsome
        refine ih _ (Or.inr ?_)
        rw [← heq]
        show pn ∈ (match propValueRef defs pn ps with
          | some v => jsonObjInsert acc pn v
          | none => acc).map Prod.fst
        rw [hv]
        exact mem_keys_jsonObjInsert_self _ _ _
      · exact ih _ (Or.inl ⟨hrest, hsome⟩)
    · refine ih _ (Or.inr ?_)
      cases hq : propValueRef defs q.1 q.2 with
      | none => simpa [hq] using hacc
      | some v =>
        simp only [hq]
        exact mem_keys_jsonObjInsert_mono _ _ _ _ hacc

/-- The definitions table of the C6 scenario: a `User` definition with
`properties: {name: {type: string}, age: {type: integer, default: 0}}`
and `required: [name]`. -/
def c6defs : List (String × Schema) :=
  [("User", .mk none none none none none
    (some [("name", .mk none none (some "string") none none none [] none),
           ("age", .mk none none (some "integer") none (some (.num 0)) none [] none)])
    ["name"] none)]

/-- The C6 operation: one body parameter whose schema is
`$ref: #/definitions/User`. -/
def c6op : Operation :=
  ⟨some [⟨some "body", some "body",
          some (.mk none (some "#/definitions/User") none none none none [] none),
          none, none⟩], none, none, none, none, none⟩

/-- C6: the User/age scenario synthesizes the exact two-space-indented
JSON body containing `"name": "<name>"` and `"age": 0` (the optional,
default-carrying `age` included despite `required: [name]`), and in
general every property the per-property rules produce a value for is
included in the synthesized object — `buildExampleRef` takes no
`required` input at all, so inclusion cannot depend on it. -/
theorem claim_C6_required_age_body :
    getRequestBody c6defs c6op =
      some "\x7b\n  \"name\": \"<name>\",\n  \"age\": 0\n\x7d" ∧
    containsSubstr "\x7b\n  \"name\": \"<name>\",\n  \"age\": 0\n\x7d"
      "\"name\": \"<name>\"" = true ∧
    containsSubstr "\x7b\n  \"name\": \"<name>\",\n  \"age\": 0\n\x7d" "\"age\": 0" = true ∧
    ∀ (defs props : List (String × Schema)) (pn : String) (ps : Schema),
      (pn, ps) ∈ props → (propValueRef defs pn ps).isSome = true →
      pn ∈ (buildExampleRef defs props).map Prod.fst := by
  refine ⟨by decide, by decide, by decide, ?_⟩
  intro defs props pn ps hmem hsome
  exact buildExampleRef_mem_keys_aux defs pn ps props [] (Or.inl ⟨hmem, hsome⟩)

/-- C6 witness: the non-required `age` property of the scenario is
included in the synthesized object. -/
theorem claim_C6_witness :
    "age" ∈ (buildExampleRef c6defs
      [("name", .mk none none (some "string") none none none [] none),
       ("age", .mk none none (some "integer") none (some (.num 0)) none [] none)]).map
      Prod.fst := by
  refine claim_C6_required_age_body.2.2.2 c6defs _ "age"
    (.mk none none (some "integer") none (some (.num 0)) none [] none) ?_ rfl
  exact List.mem_cons.mpr (Or.inr (List.mem_cons.mpr (Or.inl rfl)))

/-! ## Claim C5: the query string -/

/-- The query entries as the claim words them: the `in: query`
parameters in declaration order, each rendered `name=value` with the
value taken from `example`, else `default`, else the `<name>`
placeholder. -/
def specQueryItems (params : List Param) : List String :=
  (params.filter (fun p => p.inLoc = some "query")).map
    (fun p =>
      let pname := p.name.getD ""
      pname ++ "=" ++ pyStr (p.exampleVal.getD (p.defaultVal.getD (.str ("<" ++ pname ++ ">")))))

/-- The query component the claim describes: empty without query
parameters, else `?` followed by the `&`-joined entries. -/
def specQuerySuffix (params : List Param) : String :=
  if specQueryItems params = [] then "" else "?" ++ joinSep "&" (specQueryItems params)

/-- The source's query-collection loop agrees with the claim's
filter-and-render description. -/
theorem queryLoop_eq_specQueryItems (params : List Param) :
    queryLoop params = specQueryItems params := by
  induction params with
  | nil => rfl
  | cons p rest ih =>
    by_cases h : p.inLoc = some "query" <;>
      simp [queryLoop, specQueryItems, h, List.filter_cons] at ih ⊢ <;>
      simpa [specQueryItems] using ih

/-- Appending the empty string is the identity. -/
theorem string_append_empty (s : String) : s ++ "" = s := by
  cases s
  exact congrArg String.mk (List.append_nil _)

/-- String concatenation is associative. -/
theorem string_append_assoc (a b c : String) : a ++ b ++ c = a ++ (b ++ c) := by
  cases a
  cases b
  cases c
  exact congrArg String.mk (List.append_assoc _ _ _)

/-- A string formed by prepending `?` starts with `?`. -/
theorem pyStartsWith_qmark (t : String) : pyStartsWith ("?" ++ t) "?" = true := by
  cases t
  simp [pyStartsWith, List.isPrefixOf]

/-- C5: the resolved URL decomposes as the path-resolved part followed
by the query component; the query component lists the `in: query`
parameters in declaration order rendered `name=value` (value from
`example`, else `default`, else `<name>`) joined by `&`; and it begins
with `?` exactly when at least one query parameter exists. -/
theorem claim_C5_query_parameters (baseUrl path : String) (op : Operation) :
    buildUrl baseUrl path op =
      resolvePathUrl baseUrl path (op.parameters.getD []) ++
        specQuerySuffix (op.parameters.getD []) ∧
    queryLoop (op.parameters.getD []) = specQueryItems (op.parameters.getD []) ∧
    (pyStartsWith (specQuerySuffix (op.parameters.getD [])) "?" = true ↔
      (op.parameters.getD []).filter (fun p => p.inLoc = some "query") ≠ []) := by
  refine ⟨?_, queryLoop_eq_specQueryItems _, ?_⟩
  · show (if queryLoop (op.parameters.getD []) = [] then
        resolvePathUrl baseUrl path (op.parameters.getD [])
      else resolvePathUrl baseUrl path (op.parameters.getD []) ++ "?" ++
        joinSep "&" (queryLoop (op.parameters.getD []))) = _
    rw [queryLoop_eq_specQueryItems]
    unfold specQuerySuffix
    by_cases h : specQueryItems (op.parameters.getD []) = []
    · simp [h, string_append_empty]
    · simp [h, string_append_assoc]
  · unfold specQuerySuffix
    by_cases h : specQueryItems (op.parameters.getD []) = []
    · have hf : (op.parameters.getD []).filter (fun p => p.inLoc = some "query") = [] :=
        List.map_eq_nil_iff.mp h
      simp [h, hf, pyStartsWith, List.isPrefixOf]
    · have hf : (op.parameters.getD []).filter (fun p => p.inLoc = some "query") ≠ [] := by
        intro hc
        exact h (by simp [specQueryItems, hc])
      simp [h, hf, pyStartsWith_qmark]

/-! ## Claim C7: security headers -/

/-- The claim's per-scheme rule: only an `apiKey` scheme delivered in a
header produces a header, keyed by the scheme's declared `name`, valued
`Bearer <your-token>` exactly when the description mentions `Bearer`. -/
def headerForScheme (sd : SecDef) : Option (String × String) :=
  if sd.type = some "apiKey" ∧ sd.inLoc = some "header" then
    some (sd.name.getD "",
      if containsSubstr (sd.description.getD "") "Bearer" then "Bearer <your-token>"
      else "<your-token>")
  else none

/-- The claim's requirement-list selection: the operation's `security`
when present and non-empty, otherwise the document's top-level
`security` (a fallback, never a merge). -/
def specSecurityList (spec : Doc) (op : Operation) : List (List String) :=
  match op.security with
  | some (r :: rs) => r :: rs
  | _ => spec.security.getD []

/-- The header mapping as the claim describes it: walk the scheme names
of the selected requirements, keep those found in `securityDefinitions`
whose scheme produces a header, and insert the results in order. -/
def specSecurityHeaders (spec : Doc) (op : Operation) : List (String × String) :=
  ((specSecurityList spec op).flatten.filterMap
    (fun nm => (List.lookup nm spec.securityDefinitions).bind headerForScheme)).foldl
    (fun hs kv => dictInsert hs kv.1 kv.2) []

/-- The inner loop of `_get_security_headers` filters and inserts
exactly as `headerForScheme` describes. -/
theorem secInner_eq_filterMap (sdefs : List (String × SecDef)) :
    ∀ (names : List String) (hs : List (String × String)),
      secInner sdefs names hs =
        (names.filterMap (fun nm => (List.lookup nm sdefs).bind headerForScheme)).foldl
          (fun hs kv => dictInsert hs kv.1 kv.2) hs := by
  intro names
  induction names with
  | nil => intro hs; rfl
  | cons nm rest ih =>
    intro hs
    show secInner sdefs rest _ = _
    rw [ih, List.filterMap_cons]
    cases hl : List.lookup nm sdefs with
    | none => simp [hl]
    | some sd =>
      by_cases hc : sd.type = some "apiKey" ∧ sd.inLoc = some "header" <;>
        simp [hl, headerForScheme, bearerValue, hc]

/-- The outer loop of `_get_security_headers` processes the
concatenation of all requirements' scheme names. -/
theorem secLoop_eq_filterMap (sdefs : List (String × SecDef)) :
    ∀ (reqs : List (List String)) (hs : List (String × String)),
      secLoop sdefs reqs hs =
        (reqs.flatten.filterMap (fun nm => (List.lookup nm sdefs).bind headerForScheme)).foldl
          (fun hs kv => dictInsert hs kv.1 kv.2) hs := by
  intro reqs
  induction reqs with
  | nil => intro hs; rfl
  | cons req rest ih =>
    intro hs
    show secLoop sdefs rest (secInner sdefs req hs) = _
    rw [ih, secInner_eq_filterMap]
    simp [List.filterMap_append, List.foldl_append]

/-- C7: the security-header mapping of the source equals the claim's
description — operation-level list when present and non-empty, else the
document-level list (fallback, not merge); only `apiKey`-in-`header`
schemes produce a header, keyed by the scheme's `name`, with the
`Bearer <your-token>` value exactly when the description contains
`Bearer`, and `<your-token>` otherwise. -/
theorem claim_C7_security_headers (spec : Doc) (op : Operation) :
    getSecurityHeaders spec op = specSecurityHeaders spec op := by
  unfold getSecurityHeaders specSecurityHeaders
  rw [secLoop_eq_filterMap]
  congr 1
  cases hs : op.security with
  | none => simp [specSecurityList, hs]
  | some l =>
    cases l with
    | nil => simp [specSecurityList, hs]
    | cons r rs => simp [specSecurityList, hs]

/-! ## Claim C1: which body parameter the result comes from -/

/-- The body text one parameter contributes: `none` for a non-body
parameter, and for a body parameter on which the single loop iteration
of `_get_request_body` reaches no `return`. -/
def bodyParamValue (defs : List (String × Schema)) (p : Param) : Option String :=
  if p.inLoc = some "body" then
    let schema := p.schema.getD Schema.empty
    match schema.exampleVal with
    | some e => some (dumps e)
    | none =>
      let ref := schema.ref.getD ""
      if ref ≠ "" ∧ pyStartsWith ref "#/definitions/" then
        let definition := (List.lookup (lastComp ref) defs).getD Schema.empty
        match definition.exampleVal with
        | some e => some (dumps e)
        | none =>
          match definition.properties with
          | some props => some (dumps (.obj (buildExampleRef defs props)))
          | none => none
      else if schema.type = some "object" then
        match schema.properties with
        | some props => some (dumps (.obj (buildExampleInline props)))
        | none => none
      else none
  else none

/-- One step of the body loop: take the parameter's contribution if it
yields one, otherwise continue with the remaining parameters. -/
theorem bodyLoop_step (defs : List (String × Schema)) (p : Param) (rest : List Param) :
    bodyLoop defs (p :: rest) =
      match bodyParamValue defs p with
      | some v => some v
      | none => bodyLoop defs rest := by
  cases p with
  | mk inLoc nm sch ex dv =>
    by_cases hin : inLoc = some "body"
    · cases hse : (sch.getD Schema.empty).exampleVal with
      | some e => simp [bodyLoop, bodyParamValue, hin, hse]
      | none =>
        by_cases href : ((sch.getD Schema.empty).ref.getD "" ≠ "" ∧
            pyStartsWith ((sch.getD Schema.empty).ref.getD "") "#/definitions/")
        · cases hde : ((List.lookup (lastComp ((sch.getD Schema.empty).ref.getD "")) defs).getD
              Schema.empty).exampleVal with
          | some e => simp [bodyLoop, bodyParamValue, hin, hse, href, hde]
          | none =>
            cases hdp : ((List.lookup (lastComp ((sch.getD Schema.empty).ref.getD "")) defs).getD
                Schema.empty).properties with
            | some props => simp [bodyLoop, bodyParamValue, hin, hse, href, hde, hdp]
            | none => simp [bodyLoop, bodyParamValue, hin, hse, href, hde, hdp]
        · by_cases hty : (sch.getD Schema.empty).type = some "object"
          · cases hsp : (sch.getD Schema.empty).properties with
            | some props => simp [bodyLoop, bodyParamValue, hin, hse, href, hty, hsp]
            | none => simp [bodyLoop, bodyParamValue, hin, hse, href, hty, hsp]
          · simp [bodyLoop, bodyParamValue, hin, hse, href, hty]
    · simp [bodyLoop, bodyParamValue, hin]

/-- C1 (amended): the request body is the contribution of the first
body parameter whose schema yields a value; a body parameter that
yields nothing (for example a `$ref` to a missing definition) is
skipped and the scan continues with the later parameters, so the result
is absent exactly when no body parameter yields a value. -/
theorem claim_C1_first_yielding_body_param (defs : List (String × Schema)) (op : Operation) :
    getRequestBody defs op =
      ((op.parameters.getD []).filterMap (bodyParamValue defs)).head? := by
  show bodyLoop defs (op.parameters.getD []) = _
  induction op.parameters.getD [] with
  | nil => rfl
  | cons p rest ih =>
    rw [bodyLoop_step, List.filterMap_cons]
    cases bodyParamValue defs p <;> simp [ih]

/-- The C1 scenario: a first body parameter whose `$ref` points to a
missing definition, followed by a second body parameter carrying a
schema-level `example`. -/
def c1op : Operation :=
  ⟨some [⟨some "body", some "first",
          some (.mk none (some "#/definitions/Missing") none none none none [] none),
          none, none⟩,
         ⟨some "body", some "second",
          some (.mk (some (.num 5)) none none none none none [] none),
          none, none⟩], none, none, none, none, none⟩

/-- C1 counterexample: the first body parameter of `c1op` yields
nothing, yet the result is present — it comes from the second body
parameter, which the claim says is never consulted. -/
theorem claim_C1_counterexample :
    bodyParamValue []
      ⟨some "body", some "first",
       some (.mk none (some "#/definitions/Missing") none none none none [] none),
       none, none⟩ = none ∧
    getRequestBody [] c1op = some "5" := by
  constructor
  · decide
  · decide

/-! ## Claim C3: inline versus referenced per-property synthesis -/

/-- C3 (amended): for a property with an explicit `example`, or whose
type is not `array`, the inline branch synthesizes exactly what the
referenced-definition branch does (same string/format, integer-default,
boolean-default and object rules; neither consults `required`, which
appears in neither function's inputs); but an inline property of type
`array` always synthesizes the empty list, items `$ref` or not. -/
theorem claim_C3_inline_array_divergence (defs : List (String × Schema)) (pn : String)
    (ps : Schema) :
    (ps.exampleVal = none → ps.type.getD "string" = "array" →
      propValueInline pn ps = some (.arr [])) ∧
    (∀ e, ps.exampleVal = some e → propValueInline pn ps = propValueRef defs pn ps) ∧
    (ps.type.getD "string" ≠ "array" →
      propValueInline pn ps = propValueRef defs pn ps) := by
  refine ⟨fun h1 h2 => ?_, fun e he => ?_, fun hne => ?_⟩
  · simp [propValueInline, h1, h2]
  · simp [propValueInline, propValueRef, he]
  · cases hse : ps.exampleVal with
    | some e => simp [propValueInline, propValueRef, hse]
    | none =>
      simp only [propValueInline, propValueRef, hse]
      split <;> simp_all

/-- The `array`-typed schema of the C3 scenario: its `items` reference
the `Tag` definition. -/
def c3arr : Schema :=
  .mk none none (some "array") none none none []
    (some (.mk none (some "#/definitions/Tag") none none none none [] none))

/-- The C3 definitions table: `Tag` has one string property `label`;
`User` has one array property `tags` whose items reference `Tag`. -/
def c3defs : List (String × Schema) :=
  [("Tag", .mk none none none none none
     (some [("label", .mk none none (some "string") none none none [] none)]) [] none),
   ("User", .mk none none none none none (some [("tags", c3arr)]) [] none)]

/-- The C3 operation whose body schema references `User`. -/
def c3refOp : Operation :=
  ⟨some [⟨some "body", some "body",
          some (.mk none (some "#/definitions/User") none none none none [] none),
          none, none⟩], none, none, none, none, none⟩

/-- The C3 operation whose body schema is the same object written
inline. -/
def c3inlineOp : Operation :=
  ⟨some [⟨some "body", some "body",
          some (.mk none none (some "object") none none (some [("tags", c3arr)]) [] none),
          none, none⟩], none, none, none, none, none⟩

/-- C3 counterexample: the referenced path synthesizes the
single-element example list for the array property, the inline path
synthesizes the empty list, so the two bodies differ. -/
theorem claim_C3_counterexample :
    getRequestBody c3defs c3refOp =
      some "\x7b\n  \"tags\": [\n    \x7b\n      \"label\": \"<label>\"\n    \x7d\n  ]\n\x7d" ∧
    getRequestBody c3defs c3inlineOp = some "\x7b\n  \"tags\": []\n\x7d" ∧
    getRequestBody c3defs c3inlineOp ≠ getRequestBody c3defs c3refOp := by
  refine ⟨by decide, by decide, by decide⟩

/-- C3 witness: the amended rules at concrete schemas — inline array
yields `[]`; a non-array (string) schema synthesizes identically in
both branches. -/
theorem claim_C3_witness :
    propValueInline "tags" c3arr = some (.arr []) ∧
    propValueInline "label" (.mk none none (some "string") none none none [] none) =
      propValueRef c3defs "label" (.mk none none (some "string") none none none [] none) := by
  constructor
  · exact (claim_C3_inline_array_divergence c3defs "tags" c3arr).1 rfl rfl
  · exact (claim_C3_inline_array_divergence c3defs "label"
      (.mk none none (some "string") none none none [] none)).2.2 (by decide)

/-! ## Claim C2: the document after `extract_endpoints` -/

/-- The effect of line 259 on one path-item entry: a recognized method
key gets its operation's `parameters` overwritten with the merged
path-level-then-operation-level list (the key is created when absent);
every other entry is untouched. -/
def mergeOpEntry (common : List Param) (e : String × Operation) : String × Operation :=
  if e.1 ∈ METHODS then
    (e.1, { e.2 with parameters := some (common ++ e.2.parameters.getD []) })
  else e

/-- The document as the amended claim describes it after one
`extract_endpoints` run: every recognized operation's `parameters`
merged in place, everything else unchanged. -/
def mergedParamsDoc (d : Doc) : Doc :=
  { d with paths := d.paths.map (fun pe =>
      (pe.1,
       { pe.2 with
           entries := pe.2.entries.map (mergeOpEntry (pe.2.parameters.getD [])) })) }

/-- The method loop rewrites the entry list exactly by `mergeOpEntry`. -/
theorem processOps_snd (spec : Doc) (baseUrl path : String) (common : List Param) :
    ∀ entries : List (String × Operation),
      (processOps spec baseUrl path common entries).2 = entries.map (mergeOpEntry common) := by
  intro entries
  induction entries with
  | nil => rfl
  | cons e rest ih =>
    cases e with
    | mk method op =>
      by_cases h : method ∈ METHODS <;> simp [processOps, mergeOpEntry, h, ih]

/-- The path loop rewrites every path item's entries by `mergeOpEntry`
with that path's shared parameters. -/
theorem processPaths_snd (spec : Doc) (baseUrl : String) :
    ∀ paths : List (String × PathItem),
      (processPaths spec baseUrl paths).2 = paths.map (fun pe =>
        (pe.1,
         { pe.2 with
             entries := pe.2.entries.map (mergeOpEntry (pe.2.parameters.getD [])) })) := by
  intro paths
  induction paths with
  | nil => rfl
  | cons pe rest ih =>
    cases pe with
    | mk path pi => simp [processPaths, ih, processOps_snd]

/-- C2 (amended): `extract_endpoints` does not leave the document
unchanged — it overwrites each recognized operation's `parameters` with
the merged path-level ++ operation-level list (line 259), creating the
key when absent; apart from those `parameters` fields the document is
exactly as loaded. -/
theorem claim_C2_parameters_overwritten (p : OpenAPIParser) :
    (extractEndpoints p).2 = mergedParamsDoc p.spec := by
  unfold extractEndpoints mergedParamsDoc
  simp [processPaths_snd]

/-- The smallest document on which the mutation is visible: one path
whose single `get` operation has no `parameters` key. -/
def c2doc : Doc :=
  ⟨some ["https"], some "h", none,
   [("/u", ⟨none, [("get", ⟨none, none, none, none, none, none⟩)]⟩)],
   [], [], none⟩

/-- Whether the first operation of the first path carries a
`parameters` key. -/
def c2paramsProbe (d : Doc) : Option Bool :=
  (d.paths.head?.bind (fun pe => pe.2.entries.head?)).map (fun e => e.2.parameters.isSome)

/-- C2 counterexample: running the extractor on `c2doc` adds a
`parameters` key (value `[]`) to its operation, so the document after
the run differs from the document as loaded. -/
theorem claim_C2_counterexample :
    c2paramsProbe (extractEndpoints ⟨c2doc, "https://h"⟩).2 = some true ∧
    c2paramsProbe c2doc = some false ∧
    (extractEndpoints ⟨c2doc, "https://h"⟩).2 ≠ c2doc := by
  refine ⟨by decide, by decide, fun h => ?_⟩
  have h2 := congrArg c2paramsProbe h
  rw [show c2paramsProbe (extractEndpoints ⟨c2doc, "https://h"⟩).2 = some true from by decide,
      show c2paramsProbe c2doc = some false from by decide] at h2
  exact (by decide : (some true : Option Bool) ≠ some false) h2

/-! ## Claim C4: path-parameter substitution

The analysis works on the character lists underlying the URL strings.
A URL is viewed as a sequence of segments — literal text and `{name}`
placeholders — and Python's `replace` is shown to rewrite whole
placeholders and nothing else as long as the text's braces occur only
as placeholder delimiters and the substituted values are brace-free. -/

/-- The fuel argument of `replaceFuel` is irrelevant once it covers the
text's length. -/
theorem replaceFuel_irrel (pat v : List Char) :
    ∀ (f1 : Nat) (s : List Char) (f2 : Nat), s.length ≤ f1 → s.length ≤ f2 →
      replaceFuel pat v f1 s = replaceFuel pat v f2 s := by
  intro f1
  induction f1 with
  | zero =>
    intro s f2 h1 _
    have hs : s = [] := List.eq_nil_of_length_eq_zero (Nat.le_zero.mp h1)
    subst hs
    cases f2 <;> rfl
  | succ f ih =>
    intro s f2 h1 h2
    cases s with
    | nil => cases f2 <;> rfl
    | cons c rest =>
      cases f2 with
      | zero => simp at h2
      | succ f2' =>
        by_cases h : pat ≠ [] ∧ pat <+: (c :: rest)
        · simp only [replaceFuel, if_pos h]
          have hp : 0 < pat.length := List.length_pos.mpr h.1
          have hd : ((c :: rest).drop pat.length).length = (c :: rest).length - pat.length :=
            List.length_drop _ _
          refine congrArg (v ++ ·) (ih _ _ ?_ ?_) <;>
            simp only [hd, List.length_cons] <;>
            simp only [List.length_cons] at h1 h2 <;> omega
        · simp only [replaceFuel, if_neg h]
          simp only [List.length_cons] at h1 h2
          exact congrArg (c :: ·) (ih _ _ (by omega) (by omega))

/-- Unfolding `pyReplaceL` at a non-matching head character. -/
theorem pyReplaceL_no_match (pat v : List Char) (c : Char) (s : List Char)
    (h : ¬ (pat ≠ [] ∧ pat <+: (c :: s))) :
    pyReplaceL (c :: s) pat v = c :: pyReplaceL s pat v := by
  show replaceFuel pat v (s.length + 1) (c :: s) = _
  simp only [replaceFuel, if_neg h]
  rfl

/-- Unfolding `pyReplaceL` at a match: emit the replacement and
continue past the pattern. -/
theorem pyReplaceL_match (pat v : List Char) (c : Char) (s : List Char)
    (hne : pat ≠ []) (hp : pat <+: (c :: s)) :
    pyReplaceL (c :: s) pat v = v ++ pyReplaceL ((c :: s).drop pat.length) pat v := by
  show replaceFuel pat v (s.length + 1) (c :: s) = _
  simp only [replaceFuel, if_pos (And.intro hne hp)]
  refine congrArg (v ++ ·) (replaceFuel_irrel pat v _ _ _ ?_ ?_)
  · have hp' : 0 < pat.length := List.length_pos.mpr hne
    simp only [List.length_drop, List.length_cons]
    omega
  · exact Nat.le_refl _

/-- Brace-freedom: the text introduces no placeholder openers. -/
@[reducible]
def noLB (s : List Char) : Prop := '\x7b' ∉ s

/-- A well-formed placeholder name contains neither brace. -/
@[reducible]
def nameOK (n : List Char) : Prop := '\x7b' ∉ n ∧ '\x7d' ∉ n

/-- A pattern starting with `{` does not match at a non-`{` character. -/
theorem pyReplaceL_lit_step (pt v : List Char) (c : Char) (s : List Char)
    (hc : c ≠ '\x7b') :
    pyReplaceL (c :: s) ('\x7b' :: pt) v = c :: pyReplaceL s ('\x7b' :: pt) v := by
  refine pyReplaceL_no_match _ _ _ _ ?_
  rintro ⟨-, hp⟩
  exact hc ((List.cons_prefix_cons.mp hp).1.symm)

/-- A pattern starting with `{` passes over a `{`-free text block. -/
theorem pyReplaceL_lit (pt v : List Char) :
    ∀ (t s : List Char), noLB t →
      pyReplaceL (t ++ s) ('\x7b' :: pt) v = t ++ pyReplaceL s ('\x7b' :: pt) v := by
  intro t
  induction t with
  | nil => intro s _; rfl
  | cons c t' ih =>
    intro s ht
    have hc : c ≠ '\x7b' := fun h => ht (h ▸ List.mem_cons_self c t')
    have ht' : noLB t' := fun h => ht (List.mem_cons_of_mem c h)
    show pyReplaceL (c :: (t' ++ s)) ('\x7b' :: pt) v = _
    rw [pyReplaceL_lit_step _ _ _ _ hc, ih s ht']
    rfl

/-- The pattern consumes itself where it occurs. -/
theorem pyReplaceL_self (pt v s : List Char) :
    pyReplaceL (('\x7b' :: pt) ++ s) ('\x7b' :: pt) v =
      v ++ pyReplaceL s ('\x7b' :: pt) v := by
  show pyReplaceL ('\x7b' :: (pt ++ s)) ('\x7b' :: pt) v = _
  rw [pyReplaceL_match _ _ _ _ (by simp) (by
    show ('\x7b' :: pt) <+: ('\x7b' :: pt) ++ s
    exact List.prefix_append _ _)]
  refine congrArg (v ++ pyReplaceL · ('\x7b' :: pt) v) ?_
  show (('\x7b' :: pt) ++ s).drop ('\x7b' :: pt).length = s
  exact List.drop_left _ _

/-- Two brace-free names closed by `}` and laid over the same text are
equal: the closing brace pins down where each name ends. -/
theorem closedBrace_prefix_eq :
    ∀ (a b X : List Char), '\x7d' ∉ a → '\x7d' ∉ b →
      (a ++ ['\x7d']) <+: (b ++ ['\x7d'] ++ X) → a = b := by
  intro a
  induction a with
  | nil =>
    intro b X _ hb h
    cases b with
    | nil => rfl
    | cons d b' =>
      exfalso
      have : ('\x7d' : Char) = d := (List.cons_prefix_cons.mp h).1
      exact hb (this ▸ List.mem_cons_self d b')
  | cons c a' ih =>
    intro b X ha hb h
    cases b with
    | nil =>
      exfalso
      have : c = '\x7d' := (List.cons_prefix_cons.mp h).1
      exact ha (this ▸ List.mem_cons_self c a')
    | cons d b' =>
      have h' := List.cons_prefix_cons.mp h
      have ha' : '\x7d' ∉ a' := fun hm => ha (List.mem_cons_of_mem c hm)
      have hb' : '\x7d' ∉ b' := fun hm => hb (List.mem_cons_of_mem d hm)
      exact h'.1 ▸ congrArg (c :: ·) (ih b' X ha' hb' h'.2)

/-- A placeholder pattern for one name never matches at the opening
brace of a different name's placeholder. -/
theorem ph_no_match (m n X : List Char) (hmn : m ≠ n)
    (hm : '\x7d' ∉ m) (hn : '\x7d' ∉ n) :
    ¬ (('\x7b' :: (n ++ ['\x7d'])) ≠ [] ∧
       ('\x7b' :: (n ++ ['\x7d'])) <+: ('\x7b' :: (m ++ ['\x7d'] ++ X))) := by
  rintro ⟨-, hp⟩
  exact hmn ((closedBrace_prefix_eq n m X hn hm (List.cons_prefix_cons.mp hp).2).symm)

/-- The pattern for name `n` passes over the whole placeholder of a
different name `m`. -/
theorem pyReplaceL_ph_skip (m n v X : List Char) (hmn : m ≠ n)
    (hm : nameOK m) (hn : nameOK n) :
    pyReplaceL (('\x7b' :: (m ++ ['\x7d'])) ++ X) ('\x7b' :: (n ++ ['\x7d'])) v =
      ('\x7b' :: (m ++ ['\x7d'])) ++ pyReplaceL X ('\x7b' :: (n ++ ['\x7d'])) v := by
  have h0 : ('\x7b' :: (m ++ ['\x7d'])) ++ X = '\x7b' :: (m ++ ['\x7d'] ++ X) := by
    simp
  rw [h0, pyReplaceL_no_match _ _ _ _ (ph_no_match m n X hmn hm.2 hn.2)]
  have h1 : m ++ ['\x7d'] ++ X = m ++ ('\x7d' :: X) := by simp
  rw [h1, pyReplaceL_lit _ _ m ('\x7d' :: X) hm.1,
      pyReplaceL_lit_step _ _ _ _ (by decide)]
  simp

/-- A segment of the URL text: literal text or a `{name}` placeholder. -/
inductive UrlSeg where
  | lit (s : List Char)
  | ph (n : List Char)

/-- The characters of one segment. -/
def UrlSeg.flat : UrlSeg → List Char
  | .lit s => s
  | .ph n => '\x7b' :: (n ++ ['\x7d'])

/-- The characters of a segment sequence. -/
def flatSegs : List UrlSeg → List Char
  | [] => []
  | sg :: rest => sg.flat ++ flatSegs rest

/-- Well-formedness of one segment: literal text opens no placeholder,
a placeholder name contains no brace. -/
def segWF : UrlSeg → Prop
  | .lit s => noLB s
  | .ph n => nameOK n

instance instDecidableSegWF (sg : UrlSeg) : Decidable (segWF sg) :=
  match sg with
  | .lit s => inferInstanceAs (Decidable ('\x7b' ∉ s))
  | .ph n => inferInstanceAs (Decidable ('\x7b' ∉ n ∧ '\x7d' ∉ n))

/-- Substituting one name's placeholder by a literal value. -/
def substOne (n v : List Char) : UrlSeg → UrlSeg
  | .ph m => if m = n then .lit v else .ph m
  | .lit s => .lit s

/-- One `replace` call rewrites exactly the placeholders of the given
name, each to the replacement value. -/
theorem pyReplaceL_flatSegs (n v : List Char) (hn : nameOK n) :
    ∀ segs : List UrlSeg, (∀ sg ∈ segs, segWF sg) →
      pyReplaceL (flatSegs segs) ('\x7b' :: (n ++ ['\x7d'])) v =
        flatSegs (segs.map (substOne n v)) := by
  intro segs
  induction segs with
  | nil => intro _; rfl
  | cons sg rest ih =>
    intro hwf
    have hsg : segWF sg := hwf sg (List.mem_cons_self sg rest)
    have hrest : ∀ s ∈ rest, segWF s := fun s hs => hwf s (List.mem_cons_of_mem sg hs)
    cases sg with
    | lit s =>
      show pyReplaceL (s ++ flatSegs rest) _ _ = s ++ _
      rw [pyReplaceL_lit _ _ s _ hsg, ih hrest]
    | ph m =>
      by_cases hmn : m = n
      · subst hmn
        show pyReplaceL (('\x7b' :: (m ++ ['\x7d'])) ++ flatSegs rest) _ _ = _
        rw [pyReplaceL_self, ih hrest]
        simp [substOne, flatSegs, UrlSeg.flat]
      · show pyReplaceL (('\x7b' :: (m ++ ['\x7d'])) ++ flatSegs rest) _ _ = _
        rw [pyReplaceL_ph_skip m n v _ hmn hsg hn, ih hrest]
        simp [substOne, hmn, flatSegs, UrlSeg.flat]

/-- Substituting with a whole table: a placeholder found in the table
becomes its value, everything else stays. -/
def phSubst (pps : List (List Char × List Char)) : UrlSeg → UrlSeg
  | .ph m =>
    match List.lookup m pps with
    | some v => .lit v
    | none => .ph m
  | .lit s => .lit s

/-- The empty table substitutes nothing. -/
theorem phSubst_nilSeg (sg : UrlSeg) : phSubst [] sg = sg := by
  cases sg <;> rfl

/-- A table is one substitution followed by the remaining table. -/
theorem phSubst_consSeg (n v : List Char) (pps : List (List Char × List Char)) (sg : UrlSeg) :
    phSubst ((n, v) :: pps) sg = phSubst pps (substOne n v sg) := by
  cases sg with
  | lit s => rfl
  | ph m =>
    by_cases h : m = n
    · simp [phSubst, substOne, List.lookup, h]
    · have hb : (m == n) = false := beq_eq_false_iff_ne.mpr h
      simp [phSubst, substOne, List.lookup, h, hb]

/-- Substitution by a brace-free value preserves well-formedness. -/
theorem segWF_substOne (n v : List Char) (hv : noLB v) (sg : UrlSeg) (h : segWF sg) :
    segWF (substOne n v sg) := by
  cases sg with
  | lit s => exact h
  | ph m =>
    by_cases hmn : m = n
    · simpa [substOne, hmn, segWF] using hv
    · simpa [substOne, hmn] using h

/-- The empty table leaves every segment list unchanged. -/
theorem map_phSubst_nil (segs : List UrlSeg) : segs.map (phSubst []) = segs := by
  induction segs with
  | nil => rfl
  | cons sg rest ihs => simp [phSubst_nilSeg, ihs]

/-- The source's sequential `replace` calls, one per path parameter. -/
def pathApply (url : List Char) (pps : List (List Char × List Char)) : List Char :=
  pps.foldl (fun u pr => pyReplaceL u ('\x7b' :: (pr.1 ++ ['\x7d'])) pr.2) url

/-- Applying every parameter in order substitutes each placeholder with
its first matching parameter's value. -/
theorem pathApply_flatSegs :
    ∀ (pps : List (List Char × List Char)) (segs : List UrlSeg),
      (∀ sg ∈ segs, segWF sg) → (∀ pr ∈ pps, nameOK pr.1 ∧ noLB pr.2) →
      pathApply (flatSegs segs) pps = flatSegs (segs.map (phSubst pps)) := by
  intro pps
  induction pps with
  | nil =>
    intro segs _ _
    show flatSegs segs = flatSegs (segs.map (phSubst []))
    rw [map_phSubst_nil]
  | cons pr rest ih =>
    intro segs hwf hok
    have hpr : nameOK pr.1 ∧ noLB pr.2 := hok pr (List.mem_cons_self pr rest)
    have hrest : ∀ q ∈ rest, nameOK q.1 ∧ noLB q.2 :=
      fun q hq => hok q (List.mem_cons_of_mem pr hq)
    show pathApply (pyReplaceL (flatSegs segs) ('\x7b' :: (pr.1 ++ ['\x7d'])) pr.2) rest = _
    rw [pyReplaceL_flatSegs pr.1 pr.2 hpr.1 segs hwf,
        ih _ (fun sg hsg => by
          obtain ⟨sg0, hsg0, rfl⟩ := List.mem_map.mp hsg
          exact segWF_substOne pr.1 pr.2 hpr.2 sg0 (hwf sg0 hsg0)) hrest,
        List.map_map]
    congr 1
    refine List.map_congr_left (fun sg _ => ?_)
    cases pr with
    | mk n v => exact (phSubst_consSeg n v rest sg).symm

/-- Whether a placeholder segment has a matching table entry. -/
def phCovered (pps : List (List Char × List Char)) : UrlSeg → Prop
  | .ph m => (List.lookup m pps).isSome = true
  | .lit _ => True

instance instDecidablePhCovered (pps : List (List Char × List Char)) (sg : UrlSeg) :
    Decidable (phCovered pps sg) :=
  match sg with
  | .ph m => inferInstanceAs (Decidable ((List.lookup m pps).isSome = true))
  | .lit _ => inferInstanceAs (Decidable True)

/-- A successful lookup returns a stored value. -/
theorem lookup_mem {α β : Type} [BEq α] [LawfulBEq α] (m : α) (v : β) :
    ∀ l : List (α × β), List.lookup m l = some v → (m, v) ∈ l := by
  intro l
  induction l with
  | nil => intro h; exact Option.noConfusion h
  | cons ab rest ih =>
    intro h
    cases hb : m == ab.1 with
    | true =>
      have hma : m = ab.1 := eq_of_beq hb
      have hv : ab.2 = v := by
        have hl : List.lookup m (ab :: rest) = some ab.2 := by
          cases ab
          simp [List.lookup, hb]
        exact Option.some.inj ((hl.symm).trans h)
      rw [hma, ← hv]
      exact List.mem_cons_self ab rest
    | false =>
      refine List.mem_cons_of_mem ab (ih ?_)
      rw [← h]
      cases ab
      simp [List.lookup, hb]

/-- After substituting every covered placeholder with brace-free
values, the rendered text opens no placeholder. -/
theorem noLB_flatSegs_subst (pps : List (List Char × List Char))
    (hvals : ∀ pr ∈ pps, noLB pr.2) :
    ∀ segs : List UrlSeg, (∀ sg ∈ segs, segWF sg) → (∀ sg ∈ segs, phCovered pps sg) →
      noLB (flatSegs (segs.map (phSubst pps))) := by
  intro segs
  induction segs with
  | nil => intro _ _; exact List.not_mem_nil _
  | cons sg rest ih =>
    intro hwf hcov
    have h1 : noLB (UrlSeg.flat (phSubst pps sg)) := by
      cases sg with
      | lit s => exact hwf _ (List.mem_cons_self _ _)
      | ph m =>
        have hc : (List.lookup m pps).isSome = true := hcov _ (List.mem_cons_self _ _)
        obtain ⟨v, hv⟩ := Option.isSome_iff_exists.mp hc
        have : (m, v) ∈ pps := lookup_mem m v pps hv
        simpa [phSubst, hv, UrlSeg.flat] using hvals _ this
    have h2 : noLB (flatSegs (rest.map (phSubst pps))) :=
      ih (fun s hs => hwf s (List.mem_cons_of_mem sg hs))
        (fun s hs => hcov s (List.mem_cons_of_mem sg hs))
    show noLB (UrlSeg.flat (phSubst pps sg) ++ flatSegs (rest.map (phSubst pps)))
    intro hm
    rcases List.mem_append.mp hm with hm | hm
    · exact h1 hm
    · exact h2 hm

/-- The data of a concatenation is the concatenation of the data. -/
theorem string_data_append (a b : String) : (a ++ b).data = a.data ++ b.data := by
  cases a
  cases b
  rfl

/-- The name/value pairs the path-substitution loop feeds to `replace`:
one per `in: path` parameter, the value being the Python string form of
its `example` (or the `<name>` placeholder). -/
def pathPairs (params : List Param) : List (List Char × List Char) :=
  params.filterMap (fun p =>
    if p.inLoc = some "path" then
      some ((p.name.getD "").data,
            (pyStr (p.exampleVal.getD (.str ("<" ++ p.name.getD "" ++ ">")))).data)
    else none)

/-- The pattern string `"{" ++ name ++ "}"` at the character level. -/
theorem pattern_data (pname : String) :
    ("\x7b" ++ pname ++ "\x7d").data = '\x7b' :: (pname.data ++ ['\x7d']) := by
  cases pname
  rfl

/-- Unfolding one step of the substitution loop. -/
theorem pathSubstLoop_cons (url : String) (p : Param) (rest : List Param) :
    pathSubstLoop url (p :: rest) =
      pathSubstLoop (if p.inLoc = some "path" then
        pyReplace url ("\x7b" ++ p.name.getD "" ++ "\x7d")
          (pyStr (p.exampleVal.getD (.str ("<" ++ p.name.getD "" ++ ">")))) else url)
        rest := rfl

/-- The substitution loop of `_build_url` is `pathApply` over the
path-parameter pairs. -/
theorem pathSubstLoop_data :
    ∀ (params : List Param) (url : String),
      (pathSubstLoop url params).data = pathApply url.data (pathPairs params) := by
  intro params
  induction params with
  | nil => intro url; rfl
  | cons p rest ih =>
    intro url
    by_cases h : p.inLoc = some "path"
    · rw [pathSubstLoop_cons, if_pos h, ih,
        show pathPairs (p :: rest) =
          ((p.name.getD "").data,
           (pyStr (p.exampleVal.getD (.str ("<" ++ p.name.getD "" ++ ">")))).data) ::
            pathPairs rest from by simp [pathPairs, h]]
      show pathApply (pyReplaceL url.data ("\x7b" ++ p.name.getD "" ++ "\x7d").data
        (pyStr (p.exampleVal.getD (.str ("<" ++ p.name.getD "" ++ ">")))).data)
        (pathPairs rest) = _
      rw [pattern_data]
      rfl
    · rw [pathSubstLoop_cons, if_neg h, ih,
        show pathPairs (p :: rest) = pathPairs rest from by simp [pathPairs, h]]

/-- Decomposition: `_build_url` is the path-resolved part followed by the query
component. -/
theorem buildUrl_decomp (baseUrl path : String) (op : Operation) :
    buildUrl baseUrl path op =
      resolvePathUrl baseUrl path (op.parameters.getD []) ++
        specQuerySuffix (op.parameters.getD []) := by
  show (if queryLoop (op.parameters.getD []) = [] then
      resolvePathUrl baseUrl path (op.parameters.getD [])
    else resolvePathUrl baseUrl path (op.parameters.getD []) ++ "?" ++
      joinSep "&" (queryLoop (op.parameters.getD []))) = _
  rw [queryLoop_eq_specQueryItems]
  unfold specQuerySuffix
  by_cases h : specQueryItems (op.parameters.getD []) = []
  · simp [h, string_append_empty]
  · simp [h, string_append_assoc]

/-- The §8 scenario operation: one `in: path` parameter `id` with
`example: 42`. -/
def c4op : Operation :=
  ⟨some [⟨some "path", some "id", none, some (.num 42), none⟩],
   none, none, none, none, none⟩

/-- The §8 scenario document: `schemes: [https]`,
`host: api.example.com`, `basePath: /v1`, one path `/users/{id}` with a
`get` operation carrying `c4op`'s parameter. -/
def c4doc : Doc :=
  ⟨some ["https"], some "api.example.com", some "/v1",
   [("/users/\x7bid\x7d", ⟨none, [("get", c4op)]⟩)], [], [], none⟩

/-- C4 (amended): on a slash-leading path, the URL is the right-trimmed
base `scheme://host/basePath` plus the path, with every `{name}`
placeholder replaced by the string form of its parameter's `example`
(or `<name>` placeholder) — provided the braces of the base-plus-path
text occur only as whole placeholders of brace-free names, every
substituted value is brace-free, every placeholder has a matching
`in: path` parameter, and the query component is brace-free, after which
no literal `{name}` remains for any declared path parameter.  Without
the brace-freedom proviso a substituted value can itself re-introduce a
literal placeholder (see the counterexample).  The §8 scenario resolves
to exactly `https://api.example.com/v1/users/42`. -/
theorem claim_C4_path_parameter_substitution :
    (∀ (baseUrl path : String) (op : Operation) (segs : List UrlSeg),
      pyStartsWith path "/" = true →
      (rstripSlash baseUrl ++ path).data = flatSegs segs →
      (∀ sg ∈ segs, segWF sg) →
      (∀ pr ∈ pathPairs (op.parameters.getD []), nameOK pr.1 ∧ noLB pr.2) →
      (∀ sg ∈ segs, phCovered (pathPairs (op.parameters.getD [])) sg) →
      noLB (specQuerySuffix (op.parameters.getD [])).data →
      (buildUrl baseUrl path op).data =
        flatSegs (segs.map (phSubst (pathPairs (op.parameters.getD [])))) ++
          (specQuerySuffix (op.parameters.getD [])).data ∧
      ∀ pr ∈ pathPairs (op.parameters.getD []),
        ¬ (('\x7b' :: (pr.1 ++ ['\x7d'])) <:+: (buildUrl baseUrl path op).data)) ∧
    (OpenAPIParser.init c4doc).map
      (fun pr => buildUrl pr.base_url "/users/\x7bid\x7d" c4op) =
      some "https://api.example.com/v1/users/42" := by
  constructor
  · intro baseUrl path op segs hstart hdata hwf hok hcov hq
    have hmain : (buildUrl baseUrl path op).data =
        flatSegs (segs.map (phSubst (pathPairs (op.parameters.getD [])))) ++
          (specQuerySuffix (op.parameters.getD [])).data := by
      rw [buildUrl_decomp, string_data_append]
      congr 1
      show (pathSubstLoop (if pyStartsWith path "/" = true then rstripSlash baseUrl ++ path
        else urljoinModel (rstripSlash baseUrl ++ "/") path) (op.parameters.getD [])).data = _
      rw [if_pos hstart, pathSubstLoop_data, hdata,
        pathApply_flatSegs (pathPairs (op.parameters.getD [])) segs hwf hok]
    refine ⟨hmain, fun pr hpr hinf => ?_⟩
    have hnb : noLB (buildUrl baseUrl path op).data := by
      rw [hmain]
      intro hmem
      rcases List.mem_append.mp hmem with hmem | hmem
      · exact noLB_flatSegs_subst (pathPairs (op.parameters.getD []))
          (fun q hq => (hok q hq).2) segs hwf hcov hmem
      · exact hq hmem
    exact hnb (hinf.subset (List.mem_cons_self _ _))
  · decide

/-- The C4 counterexample operation: the `in: path` parameter `id`
carries the example string `"{id}"`. -/
def c4badOp : Operation :=
  ⟨some [⟨some "path", some "id", none, some (.str "\x7bid\x7d"), none⟩],
   none, none, none, none, none⟩

/-- C4 counterexample: with `example: "{id}"` the substitution replaces
`{id}` by itself, so the resolved URL still contains the literal
`{id}` of a declared, example-carrying path parameter — the claim's
unconditional "contains no literal `{param}`" fails. -/
theorem claim_C4_counterexample :
    buildUrl "https://h" "/users/\x7bid\x7d" c4badOp = "https://h/users/\x7bid\x7d" ∧
    containsSubstr (buildUrl "https://h" "/users/\x7bid\x7d" c4badOp) "\x7bid\x7d" = true := by
  exact ⟨by decide, by decide⟩

/-- C4 witness: the general theorem applied to the §8 scenario — the
URL is the fully substituted rendering, and no literal `{id}` remains. -/
theorem claim_C4_witness :
    (buildUrl "https://api.example.com/v1" "/users/\x7bid\x7d" c4op).data =
      flatSegs ([UrlSeg.lit "https://api.example.com/v1/users/".data,
                 UrlSeg.ph "id".data].map
        (phSubst (pathPairs (c4op.parameters.getD [])))) ++
        (specQuerySuffix (c4op.parameters.getD [])).data ∧
    ¬ (('\x7b' :: ("id".data ++ ['\x7d'])) <:+:
        (buildUrl "https://api.example.com/v1" "/users/\x7bid\x7d" c4op).data) := by
  have h := claim_C4_path_parameter_substitution.1 "https://api.example.com/v1"
    "/users/\x7bid\x7d" c4op
    [UrlSeg.lit "https://api.example.com/v1/users/".data, UrlSeg.ph "id".data]
    (by decide) (by decide) (by decide) (by decide) (by decide) (by decide)
  exact ⟨h.1, h.2 ("id".data, (pyStr (.num 42)).data) (by decide)⟩
